import Mathlib

/-!
Verification model of `common/script_http_server.go` (clovershell/clip-save).

Strings from the Go source are modelled as `List Char`; the shared
`scriptResults` map is modelled as an association list; the buffered
result channel of capacity one is modelled as a `Slot` record with an
optional buffered value and a closed flag.  All definitions are
translated directly from the Go source; line numbers in the doc
comments refer to `src/common/script_http_server.go`.
-/

/-- Decimal digit character, as produced by Go's `fmt.Sprintf` verb `%d`:
digit `d` (0 ≤ d ≤ 9) renders as the character with code `48 + d`. -/
def digitChar (d : Nat) : Char := Char.ofNat (48 + d)

/-- Fuel-driven decimal rendering of a natural number (most significant digit
first), the digit loop behind `fmt.Sprintf` with verb `%d`. -/
def natToDecFuel : Nat → Nat → List Char
  | 0, _ => []
  | fuel + 1, n =>
    if n < 10 then [digitChar n]
    else natToDecFuel fuel (n / 10) ++ [digitChar (n % 10)]

/-- Decimal rendering of a natural number, e.g. `natToDec 1000 = "1000".data`. -/
def natToDec (n : Nat) : List Char := natToDecFuel (n + 1) n

/-- Decimal rendering of a Go `int64` value: a leading minus sign for negative
values, otherwise the digits (`fmt.Sprintf` verb `%d` on an `int64`). -/
def intToDec (i : Int) : List Char :=
  if i < 0 then '-' :: natToDec i.natAbs else natToDec i.toNat

/-- Value of a list of decimal digit characters, most significant first. -/
def digitsVal (ds : List Char) : Nat :=
  ds.foldl (fun a c => 10 * a + (c.toNat - 48)) 0

/-- Model of Go's `fmt.Sscanf(s, "%d", &x)` on the token fields this program
produces: an optional leading minus sign followed by a longest prefix of
decimal digits; it fails (`none`) when no digit is found. -/
def sscanfD (s : List Char) : Option Int :=
  match s with
  | [] => none
  | c :: rest =>
    if c = '-' then
      let ds := rest.takeWhile Char.isDigit
      if ds = [] then none else some (-(digitsVal ds : Int))
    else
      let ds := (c :: rest).takeWhile Char.isDigit
      if ds = [] then none else some ((digitsVal ds : Nat) : Int)

/-- Model of Go's `strings.Split(s, "_")` (line 135): split at every
underscore, keeping empty fields, never returning an empty list. -/
def splitU : List Char → List (List Char)
  | [] => [[]]
  | c :: cs =>
    if c = '_' then [] :: splitU cs
    else
      match splitU cs with
      | [] => [[c]]
      | f :: r => (c :: f) :: r

/-- The request token minted at line 309:
`fmt.Sprintf("req_%d_%d", time.Now().Unix(), requestCounter)`. -/
def mkRequestID (ts ctr : Int) : List Char :=
  'r' :: 'e' :: 'q' :: '_' :: (intToDec ts ++ '_' :: intToDec ctr)

/-- Flat model of the JSON-encodable dynamic values (`interface{}`) a script
may return; the dispatch code never inspects the value, it only passes it
through to the encoder, so compound values are represented by their leaves. -/
inductive Json where
  | null
  | str (s : List Char)
  | num (n : Int)
  | boolean (b : Bool)
deriving DecidableEq

/-- `ScriptHTTPResult` (lines 28–31): an optional return value
(`nil` modelled as `none`) and an error string. -/
structure ScriptHTTPResult where
  returnValue : Option Json
  error : List Char
deriving DecidableEq

/-- The Go zero value `ScriptHTTPResult{}`, received from a closed empty
channel. -/
def zeroResult : ScriptHTTPResult := ⟨none, []⟩

/-- A buffered Go channel of capacity one (`make(chan ScriptHTTPResult, 1)`,
line 313): at most one buffered value, plus a closed flag. -/
structure Slot where
  buf : Option ScriptHTTPResult
  closed : Bool
deriving DecidableEq

/-- The freshly made channel registered at line 313: empty and open. -/
def freshSlot : Slot := ⟨none, false⟩

/-- Effect of Go's `close(resultChan)` on the channel state. -/
def closeSlot (s : Slot) : Slot := ⟨s.buf, true⟩

/-- Whether a receive `<-resultChan` completes immediately, and with which
value: a buffered value if present; the zero value if the channel is closed
and empty; otherwise the receiver blocks (`none`). -/
def recvReady (s : Slot) : Option ScriptHTTPResult :=
  match s.buf with
  | some r => some r
  | none => if s.closed then some zeroResult else none

/-- The mutable state of the correlation core: the `scriptResults` map
(requestID → result channel, line 19) and the `requestCounter` (line 21). -/
structure DState where
  scriptResults : List (List Char × Slot)
  requestCounter : Int
deriving DecidableEq

/-- Lookup in the `scriptResults` map: `resultChan, exists := scriptResults[k]`. -/
def mapLookup : List (List Char × Slot) → List Char → Option Slot
  | [], _ => none
  | p :: rest, k => if p.1 = k then some p.2 else mapLookup rest k

/-- Go's `delete(scriptResults, k)`. -/
def mapDelete : List (List Char × Slot) → List Char → List (List Char × Slot)
  | [], _ => []
  | p :: rest, k => if p.1 = k then mapDelete rest k else p :: mapDelete rest k

/-- Go's map assignment `scriptResults[k] = v` (replaces any previous
binding of `k`). -/
def mapInsert (l : List (List Char × Slot)) (k : List Char) (v : Slot) :
    List (List Char × Slot) :=
  (k, v) :: mapDelete l k

/-- The expiry test of one sweep iteration (lines 135–145): split the
requestID on underscores, require at least two fields, parse the second
field as a decimal timestamp, and flag the entry when `now - timestamp > 60`.
Unparseable tokens are never flagged. -/
def expiredToken (now : Int) (requestID : List Char) : Bool :=
  match (splitU requestID).get? 1 with
  | some field =>
    match sscanfD field with
    | some timestamp => now - timestamp > 60
    | none => false
  | none => false

/-- The range-and-delete loop of one sweep tick (lines 132–146): every entry
whose key is flagged by `expiredToken` is closed and deleted, every other
entry is kept. -/
def sweepFilter (now : Int) : List (List Char × Slot) → List (List Char × Slot)
  | [] => []
  | p :: rest =>
    if expiredToken now p.1 then sweepFilter now rest
    else p :: sweepFilter now rest

/-- One tick of `cleanupExpiredResults` (lines 129–147): sweep the
`scriptResults` map under its mutex.  The enclosing `for`/`select` loop and
the 5-minute ticker are scheduling, not state transformation; removed
channels are additionally closed (observable only through references still
held by blocked handlers). -/
def cleanupExpiredResults (now : Int) (st : DState) : DState :=
  { st with scriptResults := sweepFilter now st.scriptResults }

/-- Go `int64` increment with two's-complement wraparound
(`requestCounter++`, line 308). -/
def int64inc (c : Int) : Int :=
  if c = 9223372036854775807 then -9223372036854775808 else c + 1

/-- Lines 306–316 of `handleScriptHTTPRequest`: take the counter mutex,
increment the counter, mint the requestID, create the fresh result channel
and register it in `scriptResults`. -/
def register (now : Int) (st : DState) : DState × List Char :=
  let c := int64inc st.requestCounter
  let requestID := mkRequestID now c
  (⟨mapInsert st.scriptResults requestID freshSlot, c⟩, requestID)

/-- A sequence of registrations, one per entry of the timestamp list
(`time.Now().Unix()` readings); returns the final state and the minted
tokens in order. -/
def runRegistrations : List Int → DState → DState × List (List Char)
  | [], st => (st, [])
  | t :: ts, st =>
    let p := register t st
    let q := runRegistrations ts p.1
    (q.1, p.2 :: q.2)

/-- How the `select` at lines 331–356 resolves: either the channel receive
fires with a result (a delivered value, or the zero value from a closed
channel), or the 30-second timer fires first. -/
inductive WaitOutcome where
  | recv (result : ScriptHTTPResult)
  | timedOut
deriving DecidableEq

/-- The HTTP response the handler writes: either a JSON object
(`Content-Type: application/json` plus `json.NewEncoder(w).Encode` of a
one-key map), or `http.Error` (plain text) with a status code. -/
inductive Response where
  | ok (body : List (List Char × Json))
  | httpError (status : Nat) (msg : List Char)
deriving DecidableEq

/-- Whether a response is an `http.Error` (plain-text error) response. -/
def isHTTPError : Response → Bool
  | Response.ok _ => false
  | Response.httpError _ _ => true

/-- The JSON key `"returnValue"`. -/
def rvKey : List Char := "returnValue".data

/-- The JSON key `"error"`. -/
def errKey : List Char := "error".data

/-- The plain-text body of the 408 timeout response (line 355). -/
def timeoutMsg : List Char := "脚本执行超时".data

/-- The plain-text body of the 500 executor-unavailable response (line 326). -/
def execUnavailMsg : List Char := "脚本执行器未初始化".data

/-- JSON encoding of an `interface{}` field: Go encodes `nil` as `null`. -/
def jsonOfOpt : Option Json → Json
  | some v => v
  | none => Json.null

/-- Lines 331–356 of `handleScriptHTTPRequest`, after the wait resolves:
on a received result, delete the token and encode `{"error": ...}` when the
result's error string is non-empty, otherwise `{"returnValue": ...}` (the
map literal at line 345 always contains the key, `nil` encoding as `null`);
on timeout, delete the token and answer 408. -/
def finishDispatch (requestID : List Char) (w : WaitOutcome) (st : DState) :
    DState × Response :=
  match w with
  | WaitOutcome.recv result =>
    let st' : DState := ⟨mapDelete st.scriptResults requestID, st.requestCounter⟩
    if result.error ≠ [] then
      (st', Response.ok [(errKey, Json.str result.error)])
    else
      (st', Response.ok [(rvKey, jsonOfOpt result.returnValue)])
  | WaitOutcome.timedOut =>
    (⟨mapDelete st.scriptResults requestID, st.requestCounter⟩,
      Response.httpError 408 timeoutMsg)

/-- The dispatch core of `handleScriptHTTPRequest` (lines 306–356): mint and
register the token, then either notify the executor (`hasCallback`, i.e.
`globalScriptEventCallback != nil`) and wait, or answer 500 and return at
once.  Routing, CORS and body parsing (lines 250–304) precede the
registration and touch none of this state.  Note the 500 path (lines
325–328) returns without deleting the freshly registered token. -/
def handleScriptHTTPRequest (now : Int) (hasCallback : Bool) (w : WaitOutcome)
    (st : DState) : DState × Response :=
  let p := register now st
  if hasCallback then finishDispatch p.2 w p.1
  else (p.1, Response.httpError 500 execUnavailMsg)

/-- `SetScriptHTTPResult` (lines 360–372): look up the channel; when present,
a non-blocking `select` sends the result if the buffer is empty, and the
`default` branch silently drops it otherwise.  The Go function returns
nothing; the `Bool` component here reifies which branch ran (`true` = the
result was sent into the channel), the observable matching the spec's
`deliver(token, outcome) -> bool` contract.  In every state this program
reaches, channels still in the map are open (closing always accompanies
removal), so a closed channel is never reached here. -/
def SetScriptHTTPResult (st : DState) (requestID : List Char)
    (result : ScriptHTTPResult) : DState × Bool :=
  match mapLookup st.scriptResults requestID with
  | none => (st, false)
  | some slot =>
    match slot.buf with
    | some _ => (st, false)
    | none =>
      if slot.closed then (st, false)
      else
        (⟨mapInsert st.scriptResults requestID ⟨some result, false⟩,
          st.requestCounter⟩, true)

/-- The channel-cleanup section of `StopScriptHTTPServer` (lines 110–115):
close every outstanding result channel and delete every entry.  The first
component is the registry state afterwards (empty); the second lists, per
token, the channel state a handler still blocked on that channel observes
after the close (Go's `close` mutates the shared channel object). -/
def StopScriptHTTPServer (st : DState) : DState × List (List Char × Slot) :=
  (⟨[], st.requestCounter⟩,
    st.scriptResults.map (fun p => (p.1, closeSlot p.2)))

/-- Modelled from the spec: the `UserScript` record type is declared outside
the given sources; `GetScriptIdentifier` reads only its `PluginID` and `ID`
string fields. -/
structure UserScript where
  PluginID : List Char
  ID : List Char

/-- Go slice expression `s[i:j]`: panics (here `none`) unless
`i ≤ j ≤ len(s)`. -/
def goSlice (s : List Char) (i j : Nat) : Option (List Char) :=
  if i ≤ j ∧ j ≤ s.length then some ((s.drop i).take (j - i)) else none

/-- Go slice expression `s[i:]`: panics (here `none`) unless `i ≤ len(s)`. -/
def goSliceFrom (s : List Char) (i : Nat) : Option (List Char) :=
  if i ≤ s.length then some (s.drop i) else none

/-- `GetScriptIdentifier` (lines 34–52), with each Go slice modelled as the
partial operation it is: prefer `PluginID`; else `ID[6:14]` when
`len(ID) >= 15`; else `ID[6:]` when `len(ID) > 6`; else the whole `ID`. -/
def GetScriptIdentifier (script : UserScript) : Option (List Char) :=
  if script.PluginID ≠ [] then some script.PluginID
  else if 15 ≤ script.ID.length then goSlice script.ID 6 14
  else if 6 < script.ID.length then goSliceFrom script.ID 6
  else some script.ID

/-- Total description of `GetScriptIdentifier`, following the claim's case
analysis, used to state that every guarded slice is in range. -/
def getScriptIdentifierSpec (script : UserScript) : List Char :=
  if script.PluginID ≠ [] then script.PluginID
  else if 15 ≤ script.ID.length then (script.ID.drop 6).take 8
  else if 6 < script.ID.length then script.ID.drop 6
  else script.ID

/-- Modelled from the spec: the success response body as §6 words it,
`\x7b"returnValue": <value or omitted>\x7d` — the key is omitted when the
payload is absent.  Compared against the body the code actually builds. -/
def specSuccessBody (v : Option Json) : List (List Char × Json) :=
  match v with
  | some x => [(rvKey, x)]
  | none => []


/-! ## Decimal rendering lemmas -/

/-- `natToDecFuel` does not depend on the fuel once the fuel exceeds the
argument. -/
lemma natToDecFuel_congr : ∀ f1 : Nat, ∀ n f2 : Nat, n < f1 → n < f2 →
    natToDecFuel f1 n = natToDecFuel f2 n := by
  intro f1
  induction f1 with
  | zero => intro n f2 h1 _; omega
  | succ f1' ih =>
    intro n f2 h1 h2
    cases f2 with
    | zero => omega
    | succ f2' =>
      simp only [natToDecFuel]
      by_cases hn : n < 10
      · simp [hn]
      · simp only [hn, if_false]
        have hd : n / 10 < n := Nat.div_lt_self (by omega) (by omega)
        rw [ih (n / 10) f2' (by omega) (by omega)]

/-- Unfolding equation for `natToDec`. -/
lemma natToDec_eq (n : Nat) :
    natToDec n = if n < 10 then [digitChar n]
      else natToDec (n / 10) ++ [digitChar (n % 10)] := by
  by_cases hn : n < 10
  · simp [natToDec, natToDecFuel, hn]
  · have h1 : natToDecFuel (n + 1) n
        = natToDecFuel n (n / 10) ++ [digitChar (n % 10)] := by
      simp [natToDecFuel, hn]
    have h2 : natToDecFuel n (n / 10) = natToDecFuel (n / 10 + 1) (n / 10) :=
      natToDecFuel_congr n (n / 10) (n / 10 + 1)
        (by omega) (by omega)
    simp only [natToDec, hn, if_false, h1, h2]

/-- The basic facts about a decimal digit character. -/
lemma digitChar_facts (d : Nat) (h : d < 10) :
    (digitChar d).isDigit = true ∧ digitChar d ≠ '_' ∧ digitChar d ≠ '-' ∧
      (digitChar d).toNat = 48 + d := by
  interval_cases d <;> exact (by decide)

/-- Decimal renderings are never empty. -/
lemma natToDec_ne_nil (n : Nat) : natToDec n ≠ [] := by
  rw [natToDec_eq]
  by_cases hn : n < 10 <;> simp [hn]

/-- Every character of a decimal rendering is a digit. -/
lemma natToDec_digits (n : Nat) : ∀ c ∈ natToDec n, c.isDigit = true := by
  induction n using Nat.strong_induction_on with
  | _ n ih =>
    rw [natToDec_eq]
    by_cases hn : n < 10
    · simp only [hn, if_true, List.mem_singleton]
      rintro c rfl
      exact (digitChar_facts n hn).1
    · simp only [hn, if_false, List.mem_append, List.mem_singleton]
      rintro c (hc | rfl)
      · exact ih (n / 10) (Nat.div_lt_self (by omega) (by omega)) c hc
      · exact (digitChar_facts (n % 10) (Nat.mod_lt _ (by omega))).1

/-- A digit character is not an underscore. -/
lemma isDigit_ne_underscore {c : Char} (h : c.isDigit = true) : c ≠ '_' := by
  rintro rfl
  exact absurd h (by decide)

/-- A digit character is not a minus sign. -/
lemma isDigit_ne_minus {c : Char} (h : c.isDigit = true) : c ≠ '-' := by
  rintro rfl
  exact absurd h (by decide)

/-- Appending one digit multiplies the value by ten and adds the digit. -/
lemma digitsVal_append_singleton (xs : List Char) (c : Char) :
    digitsVal (xs ++ [c]) = 10 * digitsVal xs + (c.toNat - 48) := by
  simp [digitsVal, List.foldl_append]

/-- Reading back a decimal rendering recovers the number. -/
lemma digitsVal_natToDec (n : Nat) : digitsVal (natToDec n) = n := by
  induction n using Nat.strong_induction_on with
  | _ n ih =>
    rw [natToDec_eq]
    by_cases hn : n < 10
    · simp only [hn, if_true]
      have := (digitChar_facts n hn).2.2.2
      simp [digitsVal, this]
    · simp only [hn, if_false]
      rw [digitsVal_append_singleton,
        ih (n / 10) (Nat.div_lt_self (by omega) (by omega))]
      have := (digitChar_facts (n % 10) (Nat.mod_lt _ (by omega))).2.2.2
      rw [this]
      omega

/-- `takeWhile` keeps a list all of whose elements satisfy the test. -/
lemma takeWhile_of_all (p : Char → Bool) :
    ∀ l : List Char, (∀ c ∈ l, p c = true) → l.takeWhile p = l := by
  intro l
  induction l with
  | nil => intro _; rfl
  | cons c cs ih =>
    intro h
    have hc : p c = true := h c (by simp)
    simp only [List.takeWhile_cons, hc, if_true]
    rw [ih (fun d hd => h d (by simp [hd]))]

/-- `sscanfD` reads back a nonnegative decimal rendering. -/
lemma sscanfD_natToDec (n : Nat) : sscanfD (natToDec n) = some (n : Int) := by
  obtain ⟨c, cs, hcons⟩ : ∃ c cs, natToDec n = c :: cs := by
    cases h : natToDec n with
    | nil => exact absurd h (natToDec_ne_nil n)
    | cons c cs => exact ⟨c, cs, rfl⟩
  have hdig : ∀ d ∈ c :: cs, Char.isDigit d = true := by
    rw [← hcons]; exact natToDec_digits n
  have hcne : c ≠ '-' := isDigit_ne_minus (hdig c (by simp))
  have htake : (c :: cs).takeWhile Char.isDigit = c :: cs :=
    takeWhile_of_all Char.isDigit (c :: cs) hdig
  have hval : digitsVal (c :: cs) = n := by rw [← hcons, digitsVal_natToDec]
  rw [hcons]
  simp [sscanfD, hcne, htake, hval]

/-- `sscanfD` reads back the rendering of any `int64` value. -/
lemma sscanfD_intToDec (i : Int) : sscanfD (intToDec i) = some i := by
  by_cases hi : i < 0
  · obtain ⟨c, cs, hcons⟩ : ∃ c cs, natToDec i.natAbs = c :: cs := by
      cases h : natToDec i.natAbs with
      | nil => exact absurd h (natToDec_ne_nil _)
      | cons c cs => exact ⟨c, cs, rfl⟩
    have hdig : ∀ d ∈ c :: cs, Char.isDigit d = true := by
      rw [← hcons]; exact natToDec_digits _
    have htake : (c :: cs).takeWhile Char.isDigit = c :: cs :=
      takeWhile_of_all Char.isDigit (c :: cs) hdig
    have hval : digitsVal (c :: cs) = i.natAbs := by
      rw [← hcons, digitsVal_natToDec]
    simp only [intToDec, hi, if_true, hcons]
    have hstep : sscanfD ('-' :: c :: cs)
        = if (c :: cs).takeWhile Char.isDigit = [] then none
          else some (-(digitsVal ((c :: cs).takeWhile Char.isDigit) : Int)) := by
      simp [sscanfD]
    rw [hstep, htake, if_neg (by simp), hval]
    have habs : ((i.natAbs : Nat) : Int) = -i := by omega
    rw [habs]
    simp
  · have h1 : intToDec i = natToDec i.toNat := by simp [intToDec, hi]
    rw [h1, sscanfD_natToDec]
    congr 1
    omega

/-- Rendering of `int64` values is injective. -/
lemma intToDec_inj {a b : Int} (h : intToDec a = intToDec b) : a = b := by
  have ha := sscanfD_intToDec a
  have hb := sscanfD_intToDec b
  rw [h] at ha
  rw [ha] at hb
  exact Option.some_injective _ hb

/-- A rendered `int64` value contains no underscore. -/
lemma intToDec_no_underscore (i : Int) : '_' ∉ intToDec i := by
  intro hmem
  by_cases hi : i < 0
  · simp only [intToDec, hi, if_true, List.mem_cons] at hmem
    rcases hmem with h | h
    · exact absurd h (by decide)
    · exact isDigit_ne_underscore (natToDec_digits _ _ h) rfl
  · simp only [intToDec, hi, if_false] at hmem
    exact isDigit_ne_underscore (natToDec_digits _ _ hmem) rfl

/-! ## Split and token lemmas -/

/-- `splitU` never returns the empty list of fields. -/
lemma splitU_ne_nil : ∀ l : List Char, splitU l ≠ [] := by
  intro l
  cases l with
  | nil => simp [splitU]
  | cons c cs =>
    simp only [splitU]
    by_cases hc : c = '_'
    · simp [hc]
    · simp only [hc, if_false]
      cases splitU cs <;> simp

/-- Splitting a list without underscores yields the single field. -/
lemma splitU_no_sep : ∀ l : List Char, '_' ∉ l → splitU l = [l] := by
  intro l
  induction l with
  | nil => intro _; rfl
  | cons c cs ih =>
    intro h
    have hc : c ≠ '_' := by
      intro hc; exact h (by simp [hc])
    have hcs : '_' ∉ cs := by
      intro hm; exact h (by simp [hm])
    simp only [splitU, hc, if_false, ih hcs]

/-- Splitting past an underscore-free first field peels it off. -/
lemma splitU_append : ∀ xs ys : List Char, '_' ∉ xs →
    splitU (xs ++ '_' :: ys) = xs :: splitU ys := by
  intro xs
  induction xs with
  | nil => intro ys _; simp [splitU]
  | cons c cs ih =>
    intro ys h
    have hc : c ≠ '_' := by
      intro hc; exact h (by simp [hc])
    have hcs : '_' ∉ cs := by
      intro hm; exact h (by simp [hm])
    have hih := ih ys hcs
    simp only [List.cons_append, splitU, hc, if_false, List.append_eq, hih]

/-- The fields of a minted token are exactly `req`, the rendered timestamp
and the rendered counter. -/
lemma splitU_mkRequestID (ts ctr : Int) :
    splitU (mkRequestID ts ctr) = [['r', 'e', 'q'], intToDec ts, intToDec ctr] := by
  have h1 : mkRequestID ts ctr
      = ['r', 'e', 'q'] ++ '_' :: (intToDec ts ++ '_' :: intToDec ctr) := rfl
  rw [h1, splitU_append ['r', 'e', 'q'] _ (by decide),
    splitU_append (intToDec ts) _ (intToDec_no_underscore ts),
    splitU_no_sep (intToDec ctr) (intToDec_no_underscore ctr)]

/-- Minted tokens are injective in timestamp and counter. -/
lemma mkRequestID_inj {t1 c1 t2 c2 : Int}
    (h : mkRequestID t1 c1 = mkRequestID t2 c2) : t1 = t2 ∧ c1 = c2 := by
  have hs : splitU (mkRequestID t1 c1) = splitU (mkRequestID t2 c2) := by rw [h]
  rw [splitU_mkRequestID, splitU_mkRequestID] at hs
  simp only [List.cons.injEq, and_true] at hs
  exact ⟨intToDec_inj hs.2.1, intToDec_inj hs.2.2⟩

/-- The sweep's expiry test on a minted token compares exactly the embedded
timestamp against the 60-second threshold. -/
lemma expiredToken_mkRequestID (now ts ctr : Int) :
    expiredToken now (mkRequestID ts ctr) = decide (now - ts > 60) := by
  simp only [expiredToken, splitU_mkRequestID]
  simp [sscanfD_intToDec ts]

/-! ## Registry map lemmas -/

/-- Looking up the freshly inserted key. -/
lemma mapLookup_insert_self (l : List (List Char × Slot)) (k : List Char)
    (v : Slot) : mapLookup (mapInsert l k v) k = some v := by
  simp [mapInsert, mapLookup]

/-- A deleted key is absent. -/
lemma mapLookup_delete_self (l : List (List Char × Slot)) (k : List Char) :
    mapLookup (mapDelete l k) k = none := by
  induction l with
  | nil => rfl
  | cons p rest ih =>
    by_cases hp : p.1 = k
    · simp [mapDelete, hp, ih]
    · simp [mapDelete, mapLookup, hp, ih]

/-- Deletion does not affect other keys. -/
lemma mapLookup_delete_ne (l : List (List Char × Slot)) (k k' : List Char)
    (h : k ≠ k') : mapLookup (mapDelete l k) k' = mapLookup l k' := by
  induction l with
  | nil => rfl
  | cons p rest ih =>
    by_cases hp : p.1 = k
    · have hne : p.1 ≠ k' := by rw [hp]; exact h
      simp [mapDelete, mapLookup, hp, hne, ih, h]
    · simp [mapDelete, mapLookup, hp, ih]

/-- Insertion does not affect other keys. -/
lemma mapLookup_insert_ne (l : List (List Char × Slot)) (k k' : List Char)
    (v : Slot) (h : k ≠ k') : mapLookup (mapInsert l k v) k' = mapLookup l k' := by
  show (if k = k' then some v else mapLookup (mapDelete l k) k') = mapLookup l k'
  rw [if_neg h, mapLookup_delete_ne l k k' h]

/-- What the sweep keeps, keywise: an expired key is gone, any other key is
untouched — independently of the slots' contents. -/
lemma mapLookup_sweepFilter (now : Int) (l : List (List Char × Slot))
    (k : List Char) : mapLookup (sweepFilter now l) k
      = if expiredToken now k then none else mapLookup l k := by
  induction l with
  | nil => simp [sweepFilter, mapLookup]
  | cons p rest ih =>
    by_cases hp : p.1 = k
    · subst hp
      by_cases he : expiredToken now p.1
      · simp [sweepFilter, he, ih]
      · simp [sweepFilter, mapLookup, he]
    · by_cases he : expiredToken now p.1
      · simp [sweepFilter, he, ih, mapLookup, hp]
      · simp [sweepFilter, mapLookup, he, hp, ih]

/-! ## Claim theorems -/

/-- Claim C9: `GetScriptIdentifier` is total on every script value and never
indexes out of bounds — it returns `PluginID` when non-empty, else `ID[6:14]`
when `len(ID) >= 15`, else `ID[6:]` when `len(ID) > 6`, else the whole `ID`,
each slice being taken only under a guard that makes it in-range. -/
theorem getScriptIdentifier_total (script : UserScript) :
    GetScriptIdentifier script = some (getScriptIdentifierSpec script) := by
  unfold GetScriptIdentifier getScriptIdentifierSpec goSlice goSliceFrom
  split_ifs with h1 h2 h3 h4 h5 <;> first | rfl | omega

/-- Claim C10: the handler emits the error body if and only if the outcome's
error string is non-empty, and otherwise emits the returnValue body, where an
absent payload encodes as `null`. -/
theorem error_precedence_iff (st : DState) (requestID : List Char)
    (r : ScriptHTTPResult) :
    (finishDispatch requestID (WaitOutcome.recv r) st).2
        = (if r.error ≠ [] then Response.ok [(errKey, Json.str r.error)]
           else Response.ok [(rvKey, jsonOfOpt r.returnValue)]) ∧
      jsonOfOpt none = Json.null := by
  refine ⟨?_, rfl⟩
  by_cases h : r.error ≠ [] <;> simp [finishDispatch, h]

/-- Claim C8: delivering to a token that is not registered is a no-op — the
state is unchanged and no send happens (the non-blocking lookup simply
misses, so the call neither errors nor blocks). -/
theorem deliver_unknown_token_noop (st : DState) (t : List Char)
    (r : ScriptHTTPResult) (h : mapLookup st.scriptResults t = none) :
    SetScriptHTTPResult st t r = (st, false) := by
  simp [SetScriptHTTPResult, h]

/-- Witness for claim C8 at a concrete unregistered token. -/
theorem deliver_unknown_token_noop_witness :
    mapLookup (DState.mk [] 0).scriptResults ("req_5_1").data = none ∧
      SetScriptHTTPResult ⟨[], 0⟩ ("req_5_1").data zeroResult = (⟨[], 0⟩, false) :=
  ⟨by decide,
    deliver_unknown_token_noop ⟨[], 0⟩ ("req_5_1").data zeroResult (by decide)⟩

/-- Claim C5: a dispatch whose wait resolves by the 30-second timer answers
408 with the timeout message and leaves no entry for its token in the
registry. -/
theorem timeout_408_and_removed (st : DState) (now : Int) :
    (handleScriptHTTPRequest now true WaitOutcome.timedOut st).2
        = Response.httpError 408 timeoutMsg ∧
      mapLookup
        (handleScriptHTTPRequest now true WaitOutcome.timedOut st).1.scriptResults
        (mkRequestID now (int64inc st.requestCounter)) = none := by
  refine ⟨rfl, ?_⟩
  simp only [handleScriptHTTPRequest, register, finishDispatch, if_true]
  exact mapLookup_delete_self _ _

/-- Claim C3: one sweep tick removes a minted token exactly when its embedded
creation timestamp is more than 60 seconds before `now`; younger tokens keep
their binding, and the decision depends only on the token string and `now` —
never on the slot's contents or on whether a dispatch still waits on it. -/
theorem sweep_removes_iff_older_than_60 (st : DState) (now ts ctr : Int) :
    mapLookup (cleanupExpiredResults now st).scriptResults (mkRequestID ts ctr)
      = if now - ts > 60 then none
        else mapLookup st.scriptResults (mkRequestID ts ctr) := by
  simp only [cleanupExpiredResults]
  rw [mapLookup_sweepFilter, expiredToken_mkRequestID]
  by_cases h : now - ts > 60 <;> simp [h]

/-- Counterexample to claim C1 as stated: with no executor callback
configured, the handler answers 500 but returns with the freshly minted
token still registered (the 500 path at lines 325–328 performs no delete). -/
theorem executorUnavailable_leaves_token_registered :
    (handleScriptHTTPRequest 1000 false WaitOutcome.timedOut ⟨[], 0⟩).2
        = Response.httpError 500 execUnavailMsg ∧
      mapLookup
        ((handleScriptHTTPRequest 1000 false WaitOutcome.timedOut ⟨[], 0⟩).1).scriptResults
        (mkRequestID 1000 1) = some freshSlot := by
  decide

/-- Claim C1, amended: on the two waiting exit paths (delivered result or
timeout) the handler removes its token before returning, but on the
executor-unavailable (HTTP 500) path the token's entry is left registered,
to be reclaimed only by the expiry sweeper. -/
theorem handler_cleanup_per_path (st : DState) (now : Int) (w : WaitOutcome) :
    mapLookup (handleScriptHTTPRequest now true w st).1.scriptResults
        (mkRequestID now (int64inc st.requestCounter)) = none ∧
      mapLookup (handleScriptHTTPRequest now false w st).1.scriptResults
        (mkRequestID now (int64inc st.requestCounter)) = some freshSlot := by
  constructor
  · cases w with
    | recv r =>
      simp only [handleScriptHTTPRequest, register, finishDispatch, if_true]
      by_cases h : r.error ≠ [] <;> simp [h, mapLookup_delete_self]
    | timedOut =>
      simp only [handleScriptHTTPRequest, register, finishDispatch, if_true]
      exact mapLookup_delete_self _ _
  · simp only [handleScriptHTTPRequest, register, Bool.false_eq_true, if_false]
    exact mapLookup_insert_self _ _ _

/-- Delivering to a token whose channel buffer is already full takes the
`default` branch: the value is dropped and the state is unchanged. -/
lemma SetScriptHTTPResult_full (st : DState) (t : List Char)
    (r0 r : ScriptHTTPResult)
    (h : mapLookup st.scriptResults t = some ⟨some r0, false⟩) :
    SetScriptHTTPResult st t r = (st, false) := by
  simp [SetScriptHTTPResult, h]

/-- Claim C2: on a freshly registered token, the first delivery is sent into
the slot, the second delivery hits the full buffer's `default` branch and is
silently dropped, the slot holds exactly the first outcome, and the waiting
consumer receives exactly the first outcome. -/
theorem deliver_first_write_wins (st : DState) (t : List Char)
    (o1 o2 : ScriptHTTPResult)
    (h : mapLookup st.scriptResults t = some freshSlot) :
    (SetScriptHTTPResult st t o1).2 = true ∧
      (SetScriptHTTPResult (SetScriptHTTPResult st t o1).1 t o2).2 = false ∧
      mapLookup
        (SetScriptHTTPResult (SetScriptHTTPResult st t o1).1 t o2).1.scriptResults
        t = some ⟨some o1, false⟩ ∧
      recvReady ⟨some o1, false⟩ = some o1 := by
  have h1 : SetScriptHTTPResult st t o1
      = (⟨mapInsert st.scriptResults t ⟨some o1, false⟩, st.requestCounter⟩,
          true) := by
    simp [SetScriptHTTPResult, h, freshSlot]
  have h2 : mapLookup (SetScriptHTTPResult st t o1).1.scriptResults t
      = some ⟨some o1, false⟩ := by
    rw [h1]
    exact mapLookup_insert_self _ _ _
  have h3 : SetScriptHTTPResult (SetScriptHTTPResult st t o1).1 t o2
      = ((SetScriptHTTPResult st t o1).1, false) :=
    SetScriptHTTPResult_full _ t o1 o2 h2
  refine ⟨by rw [h1], by rw [h3], ?_, rfl⟩
  rw [h3]
  exact h2

/-- Witness for claim C2 at a concrete registered token and two outcomes. -/
theorem deliver_first_write_wins_witness :
    mapLookup (DState.mk [(['t'], freshSlot)] 0).scriptResults ['t']
        = some freshSlot ∧
      (SetScriptHTTPResult ⟨[(['t'], freshSlot)], 0⟩ ['t']
          ⟨some (Json.num 1), []⟩).2 = true ∧
      (SetScriptHTTPResult
          (SetScriptHTTPResult ⟨[(['t'], freshSlot)], 0⟩ ['t']
            ⟨some (Json.num 1), []⟩).1 ['t'] ⟨some (Json.num 2), []⟩).2
        = false ∧
      mapLookup
        (SetScriptHTTPResult
            (SetScriptHTTPResult ⟨[(['t'], freshSlot)], 0⟩ ['t']
              ⟨some (Json.num 1), []⟩).1 ['t']
            ⟨some (Json.num 2), []⟩).1.scriptResults ['t']
        = some ⟨some ⟨some (Json.num 1), []⟩, false⟩ ∧
      recvReady ⟨some ⟨some (Json.num 1), []⟩, false⟩
        = some ⟨some (Json.num 1), []⟩ :=
  ⟨by decide,
    deliver_first_write_wins ⟨[(['t'], freshSlot)], 0⟩ ['t']
      ⟨some (Json.num 1), []⟩ ⟨some (Json.num 2), []⟩ (by decide)⟩

/-- Counterexample to claim C7 as stated: for a successful outcome with no
return value the code's body is the object with key `returnValue` bound to
`null` — the key is not omitted, so the body differs from the spec-worded
success body for an absent value. -/
theorem success_body_null_not_omitted :
    (handleScriptHTTPRequest 0 true (WaitOutcome.recv zeroResult) ⟨[], 0⟩).2
        = Response.ok [(rvKey, Json.null)] ∧
      Response.ok [(rvKey, Json.null)] ≠ Response.ok (specSuccessBody none) := by
  decide

/-- Claim C7, amended: on a successful delivery the body is
`\x7b"returnValue": <value, or null when the payload is absent>\x7d`; on a
script-reported error it is `\x7b"error": <message>\x7d`; on timeout it is the
plain-text 408 response; with no executor hook it is the plain-text 500
response. -/
theorem response_bodies_per_path (st : DState) (now : Int)
    (r : ScriptHTTPResult) (w : WaitOutcome) :
    (handleScriptHTTPRequest now true (WaitOutcome.recv r) st).2
        = (if r.error ≠ [] then Response.ok [(errKey, Json.str r.error)]
           else Response.ok [(rvKey, jsonOfOpt r.returnValue)]) ∧
      (handleScriptHTTPRequest now true WaitOutcome.timedOut st).2
        = Response.httpError 408 timeoutMsg ∧
      (handleScriptHTTPRequest now false w st).2
        = Response.httpError 500 execUnavailMsg := by
  refine ⟨?_, rfl, rfl⟩
  by_cases h : r.error ≠ [] <;> simp [handleScriptHTTPRequest, finishDispatch, h]

/-- Counterexample to claim C6 as stated: after stop closes an outstanding
empty slot, the blocked dispatcher is indeed woken at once — but it receives
the zero value and responds with the ordinary 200 success body
`\x7b"returnValue": null\x7d`, not with any distinguishable "server stopped"
condition (the response is not even an error response). -/
theorem stop_wakes_to_plain_success :
    (StopScriptHTTPServer ⟨[(['t'], freshSlot)], 1⟩).2
        = [(['t'], ⟨none, true⟩)] ∧
      recvReady ⟨none, true⟩ = some zeroResult ∧
      (finishDispatch ['t'] (WaitOutcome.recv zeroResult)
          (StopScriptHTTPServer ⟨[(['t'], freshSlot)], 1⟩).1).2
        = Response.ok [(rvKey, Json.null)] ∧
      isHTTPError
        (finishDispatch ['t'] (WaitOutcome.recv zeroResult)
            (StopScriptHTTPServer ⟨[(['t'], freshSlot)], 1⟩).1).2 = false := by
  decide

/-- Claim C6, amended: stop empties the token-to-slot mapping and closes
every outstanding slot; a dispatcher blocked on one of those slots is woken
immediately (its receive completes at once instead of waiting out the
30-second timer), and when its slot was still empty it receives the zero
outcome and responds with the plain 200 success body
`\x7b"returnValue": null\x7d` — the code produces no distinct "server
stopped" condition. -/
theorem stop_closes_all_and_wakes (st : DState) (p : List Char × Slot)
    (hp : p ∈ (StopScriptHTTPServer st).2) :
    (StopScriptHTTPServer st).1.scriptResults = [] ∧
      p.2.closed = true ∧
      (recvReady p.2).isSome = true ∧
      (p.2.buf = none →
        recvReady p.2 = some zeroResult ∧
        (finishDispatch p.1 (WaitOutcome.recv zeroResult)
            (StopScriptHTTPServer st).1).2
          = Response.ok [(rvKey, Json.null)]) := by
  simp only [StopScriptHTTPServer, List.mem_map] at hp
  obtain ⟨q, hq, rfl⟩ := hp
  refine ⟨rfl, rfl, ?_, ?_⟩
  · cases hbuf : q.2.buf <;> simp [recvReady, closeSlot, hbuf]
  · intro hb
    have hqb : q.2.buf = none := hb
    refine ⟨by simp [recvReady, closeSlot, hqb], ?_⟩
    simp [finishDispatch, zeroResult, jsonOfOpt]

/-- Witness for the amended claim C6 at a concrete stopped registry. -/
theorem stop_closes_all_and_wakes_witness :
    ((['t'], (⟨none, true⟩ : Slot))
        ∈ (StopScriptHTTPServer ⟨[(['t'], freshSlot)], 1⟩).2) ∧
      (StopScriptHTTPServer ⟨[(['t'], freshSlot)], 1⟩).1.scriptResults = [] ∧
      (⟨none, true⟩ : Slot).closed = true ∧
      (recvReady ⟨none, true⟩).isSome = true ∧
      ((⟨none, true⟩ : Slot).buf = none →
        recvReady ⟨none, true⟩ = some zeroResult ∧
        (finishDispatch ['t'] (WaitOutcome.recv zeroResult)
            (StopScriptHTTPServer ⟨[(['t'], freshSlot)], 1⟩).1).2
          = Response.ok [(rvKey, Json.null)]) :=
  ⟨by decide,
    stop_closes_all_and_wakes ⟨[(['t'], freshSlot)], 1⟩
      (['t'], ⟨none, true⟩) (by decide)⟩

/-- As long as the `int64` counter cannot overflow during the run, each
registration increments it by exactly one. -/
lemma runRegistrations_counter (ts : List Int) (st : DState)
    (h : st.requestCounter + ts.length ≤ 9223372036854775807) :
    (runRegistrations ts st).1.requestCounter
      = st.requestCounter + ts.length := by
  induction ts generalizing st with
  | nil => simp [runRegistrations]
  | cons t ts' ih =>
    simp only [List.length_cons] at h
    push_cast at h
    have hc : st.requestCounter ≠ (9223372036854775807 : Int) := by omega
    have hreg1 : (register t st).1.requestCounter = st.requestCounter + 1 := by
      simp [register, int64inc, hc]
    have hh : (register t st).1.requestCounter + (ts'.length : Int)
        ≤ 9223372036854775807 := by
      rw [hreg1]; omega
    simp only [runRegistrations, List.length_cons]
    rw [ih _ hh, hreg1]
    push_cast
    ring

/-- Every token minted during an overflow-free run carries a counter strictly
above the starting counter and at most the starting counter plus the number
of registrations. -/
lemma runRegistrations_tokens (ts : List Int) (st : DState)
    (h : st.requestCounter + ts.length ≤ 9223372036854775807) :
    ∀ tok ∈ (runRegistrations ts st).2, ∃ t c : Int, tok = mkRequestID t c ∧
      st.requestCounter < c ∧ c ≤ st.requestCounter + ts.length := by
  induction ts generalizing st with
  | nil => simp [runRegistrations]
  | cons t ts' ih =>
    simp only [List.length_cons] at h
    push_cast at h
    have hc : st.requestCounter ≠ (9223372036854775807 : Int) := by omega
    have hreg1 : (register t st).1.requestCounter = st.requestCounter + 1 := by
      simp [register, int64inc, hc]
    intro tok htok
    simp only [runRegistrations, List.mem_cons] at htok
    rcases htok with rfl | htok
    · refine ⟨t, st.requestCounter + 1, ?_, by omega, ?_⟩
      · show mkRequestID t (int64inc st.requestCounter) = _
        rw [int64inc, if_neg hc]
      · simp only [List.length_cons]
        push_cast
        omega
    · obtain ⟨t', c', rfl, hgt, hle⟩ :=
        ih (register t st).1 (by rw [hreg1]; omega) tok htok
      rw [hreg1] at hgt hle
      refine ⟨t', c', rfl, by omega, ?_⟩
      simp only [List.length_cons]
      push_cast
      omega

/-- Claim C4: in any run of registrations during which the `int64` counter
cannot overflow, the counter grows by exactly one per registration (strictly
increasing), and the minted tokens are pairwise distinct — even when several
registrations share the same clock second. -/
theorem registered_tokens_distinct (ts : List Int) (st : DState)
    (h : st.requestCounter + ts.length ≤ 9223372036854775807) :
    ((runRegistrations ts st).2).Pairwise (fun a b => a ≠ b) ∧
      (runRegistrations ts st).1.requestCounter
        = st.requestCounter + ts.length := by
  refine ⟨?_, runRegistrations_counter ts st h⟩
  induction ts generalizing st with
  | nil => simp [runRegistrations]
  | cons t ts' ih =>
    simp only [List.length_cons] at h
    push_cast at h
    have hc : st.requestCounter ≠ (9223372036854775807 : Int) := by omega
    have hreg1 : (register t st).1.requestCounter = st.requestCounter + 1 := by
      simp [register, int64inc, hc]
    simp only [runRegistrations]
    rw [List.pairwise_cons]
    constructor
    · intro tok htok heq
      obtain ⟨t', c', rfl, hgt, hle⟩ :=
        runRegistrations_tokens ts' (register t st).1
          (by rw [hreg1]; omega) tok htok
      have heq' : mkRequestID t (int64inc st.requestCounter)
          = mkRequestID t' c' := heq
      have hcc : int64inc st.requestCounter = c' := (mkRequestID_inj heq').2
      rw [int64inc, if_neg hc] at hcc
      rw [hreg1] at hgt
      omega
    · exact ih (register t st).1 (by rw [hreg1]; omega)

/-- Witness for claim C4: two registrations within the same clock second
yield distinct tokens. -/
theorem registered_tokens_distinct_witness :
    ((DState.mk [] 0).requestCounter + (([5, 5] : List Int)).length
        ≤ 9223372036854775807) ∧
      ((runRegistrations [5, 5] ⟨[], 0⟩).2).Pairwise (fun a b => a ≠ b) ∧
      (runRegistrations [5, 5] ⟨[], 0⟩).1.requestCounter
        = (DState.mk [] 0).requestCounter + (([5, 5] : List Int)).length :=
  ⟨by decide,
    registered_tokens_distinct [5, 5] ⟨[], 0⟩ (by decide)⟩
